import Mathlib

/-!
# Verification of the ComparePO format-preserving catalog engine

This file is a shallow embedding, in Lean 4, of the core of
`compare_po.py` (the "Unified PO Tool"): the entry codec
(`po_escape` / `_parse_po_string`), the document splitter
(`split_file_into_entries`), the entry parser (`parse_entry_block`),
the block patcher (`replace_msgstr_in_block` / `ensure_fuzzy_flag`),
the canonicalizer (`canonicalize_msgid` and its text-normalization
helpers) and the divergence engine (`check_divergence`), together with
the per-block body of the fill algorithm (`run_fill`).

Python strings are modelled as `List Char`.  Python `bytes`-level
concerns, file I/O, and terminal/HTML reporting are out of scope.
External library behaviour (`ast.literal_eval` on a quoted string
literal, `html.unescape`, `unicodedata.normalize("NFKC", -)`,
`str.lower`) is modelled explicitly by executable definitions whose doc
comments state the modelled scope; Unicode code points that Lean's
`Char` cannot represent (lone surrogates) are outside the model, which
matches the specification's exclusion of "unpaired surrogate-like
malformed sequences".

Regular-expression based helpers of the source are modelled by
hand-written scanners that follow the regex semantics (leftmost match,
alternation order, greediness) of the concrete patterns used:
`WORD_RE`, `PLACEHOLDER_RE`, `MARKDOWN_HTML_TAG_RE`, the CDATA pattern
and the `msgstr[N]` header pattern.  Scanners whose step may consume
more than one character take a fuel argument; every step consumes at
least one character, so fuel equal to the input length (which is what
every wrapper passes) is never exhausted.
-/

namespace ComparePO

/-! ## Python string primitives -/

/-- The ASCII whitespace characters recognised by Python's `str.strip` /
`str.lstrip` / `str.split` and by the regex class `\s` (space, tab,
newline, carriage return, vertical tab, form feed).  Non-ASCII Unicode
whitespace, which Python also strips, is not modelled; no string in
this development contains any. -/
def isPyWS (c : Char) : Bool :=
  c = ' ' || c = '\t' || c = '\n' || c = '\r' || c = Char.ofNat 11 || c = Char.ofNat 12

/-- Python `str.lstrip()` with no argument. -/
def pyLstrip (l : List Char) : List Char := l.dropWhile isPyWS

/-- Python `str.rstrip()` with no argument. -/
def pyRstrip (l : List Char) : List Char := (l.reverse.dropWhile isPyWS).reverse

/-- Python `str.strip()` with no argument. -/
def pyStrip (l : List Char) : List Char := pyRstrip (pyLstrip l)

/-- Drop a trailing run of characters satisfying `p` (used for the
`re.sub(r'[.\!…\s]+$', '', s)` call of the source). -/
def rstripWhile (p : Char → Bool) (l : List Char) : List Char :=
  (l.reverse.dropWhile p).reverse

/-- Python `str.split(',')`: split on every comma, keeping empty parts. -/
def pySplitComma : List Char → List (List Char)
  | [] => [[]]
  | c :: t =>
    match pySplitComma t with
    | [] => [[]]
    | h :: r => if c = ',' then [] :: h :: r else (c :: h) :: r

/-- The words of `str.split()` with no argument: maximal runs of
non-whitespace characters, in order. -/
def wsWords : List Char → List (List Char)
  | [] => []
  | [c] => if isPyWS c then [] else [[c]]
  | c :: d :: t =>
    if isPyWS c then wsWords (d :: t)
    else if isPyWS d then [c] :: wsWords (d :: t)
    else
      match wsWords (d :: t) with
      | [] => [[c]]
      | w :: ws => (c :: w) :: ws

/-- `' '.join(words)`. -/
def sjoin : List (List Char) → List Char
  | [] => []
  | [w] => w
  | w :: ws => w ++ ' ' :: sjoin ws

/-- `' '.join(s.split())`: collapse every whitespace run to a single
space and trim both ends. -/
def pyJoinSplit (l : List Char) : List Char := sjoin (wsWords l)

/-- The lowercasing table: the ASCII uppercase letters and the
Hungarian (Latin-1 / Latin Extended-A) uppercase letters that occur in
this development, with their lowercase forms. -/
def lowerTable : List (Char × Char) :=
  [('A', 'a'), ('B', 'b'), ('C', 'c'), ('D', 'd'), ('E', 'e'), ('F', 'f'),
   ('G', 'g'), ('H', 'h'), ('I', 'i'), ('J', 'j'), ('K', 'k'), ('L', 'l'),
   ('M', 'm'), ('N', 'n'), ('O', 'o'), ('P', 'p'), ('Q', 'q'), ('R', 'r'),
   ('S', 's'), ('T', 't'), ('U', 'u'), ('V', 'v'), ('W', 'w'), ('X', 'x'),
   ('Y', 'y'), ('Z', 'z'),
   ('Á', 'á'), ('É', 'é'), ('Í', 'í'), ('Ó', 'ó'), ('Ö', 'ö'), ('Ő', 'ő'),
   ('Ú', 'ú'), ('Ü', 'ü'), ('Ű', 'ű')]

/-- Python `str.lower()`, modelled by `lowerTable`; characters outside
the table are left unchanged. -/
def pyLower (c : Char) : Char :=
  ((lowerTable.find? (fun p => p.1 = c)).map Prod.snd).getD c

/-- `str.lower()` on a whole string. -/
def pyLowerStr (l : List Char) : List Char := l.map pyLower

/-- One character of the regex class `[\w]` (pattern `WORD_RE`,
compiled with `re.UNICODE`): ASCII letters, digits, underscore, and
the accented Latin letters used by the catalogs of this repository.
Other Unicode word characters are not modelled. -/
def isWordChar (c : Char) : Bool :=
  ('a' ≤ c && c ≤ 'z') || ('A' ≤ c && c ≤ 'Z') || ('0' ≤ c && c ≤ '9') || c = '_'
  || c = 'á' || c = 'é' || c = 'í' || c = 'ó' || c = 'ö' || c = 'ő'
  || c = 'ú' || c = 'ü' || c = 'ű'
  || c = 'Á' || c = 'É' || c = 'Í' || c = 'Ó' || c = 'Ö' || c = 'Ő'
  || c = 'Ú' || c = 'Ü' || c = 'Ű'

/-- Generic single-character substitution: Python `s.replace(a, rep)`
for a one-character pattern `a` (each occurrence of `a` becomes `rep`,
scanning left to right). -/
def replChar (a : Char) (rep : List Char) : List Char → List Char
  | [] => []
  | c :: t => (if c = a then rep else [c]) ++ replChar a rep t

/-- Generic two-character substitution: Python `s.replace(ab, rep)` for
a two-character pattern `[a, b]` (non-overlapping occurrences, left to
right, scanning resumes after the replacement). -/
def replPair (a b : Char) (rep : List Char) : List Char → List Char
  | [] => []
  | [c] => [c]
  | c :: d :: t =>
    if c = a && d = b then rep ++ replPair a b rep t
    else c :: replPair a b rep (d :: t)

/-- Concatenation of a character-to-string map over a string (the
shape of a single-character `str.replace`); used to reason about the
escaping chain of `po_escape`. -/
def cmap (f : Char → List Char) : List Char → List Char
  | [] => []
  | c :: t => f c ++ cmap f t

/-- Pointwise form of `s.replace('\\', '\\\\')`. -/
def escBS (c : Char) : List Char := if c = '\\' then ['\\', '\\'] else [c]

/-- Pointwise form of `s.replace('"', '\\"')`. -/
def escQuote (c : Char) : List Char := if c = '"' then ['\\', '"'] else [c]

/-- Pointwise form of `s.replace('\n', '\\n')`. -/
def escNL (c : Char) : List Char := if c = '\n' then ['\\', 'n'] else [c]

/-- Pointwise form of `s.replace('\t', '\\t')`. -/
def escTab (c : Char) : List Char := if c = '\t' then ['\\', 't'] else [c]

/-- The per-character effect of the whole `po_escape` replacement chain
on a carriage-return-free string: backslash, quote, newline and tab are
escaped, everything else is kept. -/
def escChar (c : Char) : List Char :=
  if c = '\\' then ['\\', '\\']
  else if c = '"' then ['\\', '"']
  else if c = '\n' then ['\\', 'n']
  else if c = '\t' then ['\\', 't']
  else [c]

/-! ## Entry codec (`po_escape`, `_parse_po_string`) -/

/-- The NUL character (Python `'\x00'`). -/
def nulChar : Char := Char.ofNat 0

/-- Hex digit test for the `\xHH` / `\uHHHH` escapes. -/
def isHexDigitChar (c : Char) : Bool :=
  Char.isDigit c || ('a' ≤ c && c ≤ 'f') || ('A' ≤ c && c ≤ 'F')

/-- Value of a hex digit. -/
def hexVal (c : Char) : Nat :=
  if Char.isDigit c then c.toNat - '0'.toNat
  else if 'a' ≤ c && c ≤ 'f' then c.toNat - 'a'.toNat + 10
  else if 'A' ≤ c && c ≤ 'F' then c.toNat - 'A'.toNat + 10
  else 0

/-- Octal digit test. -/
def isOctDigit (c : Char) : Bool := '0' ≤ c && c ≤ '7'

/-- Value of an octal digit. -/
def octVal (c : Char) : Nat := c.toNat - '0'.toNat

/-- Modelled from the Python standard library: the evaluation
`ast.literal_eval(f'"{content}"')` performed by `_parse_po_string`,
i.e. parsing `content` as the body of a double-quoted Python string
literal.  `none` models the call raising (the `except` path of the
source).  The first argument is `true` between two adjacent literals
(Python implicitly concatenates adjacent string literals, so a raw `"`
closes the current literal and a following `"`, possibly after spaces
or tabs, opens the next one).

Modelled scope, per the doc-string contract of the surrounding code:
* escape sequences `\\ \' \" \a \b \f \n \r \t \v`, a backslash-newline
  line continuation, octal escapes of one to three digits, `\xHH`, and
  `\uHHHH` for non-surrogate code points;
* `\N{...}`, `\U`, and `\u` naming a surrogate are treated as
  unresolvable (`none`) — named escapes would need the Unicode name
  database and lone surrogates are not representable as a Lean `Char`;
* a raw newline, carriage return, or NUL makes the compilation of the
  literal fail (`none`), as it does in Python source;
* newlines between adjacent literals are not modelled (the inputs this
  decoder receives are single physical lines). -/
inductive PyState
  /-- Inside the string literal. -/
  | lit : PyState
  /-- After a closing quote, between two adjacent literals. -/
  | between : PyState
  /-- Directly after a backslash. -/
  | afterBS : PyState
  /-- After a backslash-`x`, zero or one hex digit read (the payload of
  `hex1` is the value of the first digit). -/
  | hex0 : PyState
  | hex1 : Nat → PyState
  /-- After a backslash-`u`, with the number of hex digits read and the
  value so far. -/
  | uni : Nat → Nat → PyState
  /-- After one or two octal digits, with the value so far (`oct1`: one
  digit read, `oct2`: two digits read). -/
  | oct1 : Nat → PyState
  | oct2 : Nat → PyState
deriving DecidableEq

/-- The in-literal transition on one character: a quote closes the
literal, a backslash opens an escape, a raw newline / carriage return /
NUL fails, anything else is emitted. -/
def litStep (c : Char) : Option (List Char × PyState) :=
  if c = '"' then some ([], PyState.between)
  else if c = '\\' then some ([], PyState.afterBS)
  else if c = '\n' ∨ c = '\r' ∨ c = nulChar then none
  else some ([c], PyState.lit)

/-- One transition of the string-literal scanner: given the state and
the next character, the emitted output and the next state, or `none`
when compilation of the literal fails (see `pyScan`). -/
def pyStep : PyState → Char → Option (List Char × PyState)
  | PyState.lit, c => litStep c
  | PyState.between, c =>
    if c = ' ' ∨ c = '\t' then some ([], PyState.between)
    else if c = '"' then some ([], PyState.lit)
    else none
  | PyState.afterBS, e =>
    if e = '\\' then some (['\\'], PyState.lit)
    else if e = '\'' then some (['\''], PyState.lit)
    else if e = '"' then some (['"'], PyState.lit)
    else if e = 'n' then some (['\n'], PyState.lit)
    else if e = 't' then some (['\t'], PyState.lit)
    else if e = 'r' then some (['\r'], PyState.lit)
    else if e = 'a' then some ([Char.ofNat 7], PyState.lit)
    else if e = 'b' then some ([Char.ofNat 8], PyState.lit)
    else if e = 'f' then some ([Char.ofNat 12], PyState.lit)
    else if e = 'v' then some ([Char.ofNat 11], PyState.lit)
    else if e = '\n' then some ([], PyState.lit)
    else if e = 'x' then some ([], PyState.hex0)
    else if e = 'u' then some ([], PyState.uni 0 0)
    else if e = 'U' ∨ e = 'N' then none
    else if isOctDigit e then some ([], PyState.oct1 (octVal e))
    else some (['\\', e], PyState.lit)
  | PyState.hex0, c =>
    if isHexDigitChar c then some ([], PyState.hex1 (hexVal c)) else none
  | PyState.hex1 v, c =>
    if isHexDigitChar c then some ([Char.ofNat (16 * v + hexVal c)], PyState.lit) else none
  | PyState.uni k v, c =>
    if isHexDigitChar c then
      if k = 3 then
        if 55296 ≤ 16 * v + hexVal c ∧ 16 * v + hexVal c ≤ 57343 then none
        else some ([Char.ofNat (16 * v + hexVal c)], PyState.lit)
      else some ([], PyState.uni (k + 1) (16 * v + hexVal c))
    else none
  | PyState.oct1 v, c =>
    if isOctDigit c then some ([], PyState.oct2 (8 * v + octVal c))
    else
      match litStep c with
      | none => none
      | some (out, st) => some (Char.ofNat v :: out, st)
  | PyState.oct2 v, c =>
    if isOctDigit c then some ([Char.ofNat (8 * v + octVal c)], PyState.lit)
    else
      match litStep c with
      | none => none
      | some (out, st) => some (Char.ofNat v :: out, st)

/-- What the scanner state yields when the content ends (the closing
quote of the surrounding `f'"{content}"'` is reached): a pending octal
escape is emitted, a literal ends normally, everything else is an
unterminated construct. -/
def finalEmit : PyState → Option (List Char)
  | PyState.lit => some []
  | PyState.oct1 v => some [Char.ofNat v]
  | PyState.oct2 v => some [Char.ofNat v]
  | _ => none

/-- The scanner loop: fold `pyStep` over the content, concatenating
emitted output, closing with `finalEmit`. -/
def pyScan : PyState → List Char → Option (List Char)
  | st, [] => finalEmit st
  | st, c :: t =>
    match pyStep st c with
    | none => none
    | some (out, st2) => Option.map (fun r => out ++ r) (pyScan st2 t)

/-- Modelled from the Python standard library: the evaluation
`ast.literal_eval(f'"{content}"')` performed by `_parse_po_string`,
i.e. parsing `content` as the body of a double-quoted Python string
literal, as the character-by-character scanner `pyScan` started in the
in-literal state.  `none` models the call raising (the `except` path of
the source).  The `between` state handles Python's implicit
concatenation of adjacent string literals: a raw `"` closes the current
literal and a following `"`, possibly after spaces or tabs, opens the
next one.

Modelled scope, per the doc comments of `pyStep`:
* escape sequences `\\ \' \" \a \b \f \n \r \t \v`, a backslash-newline
  line continuation, octal escapes of one to three digits, `\xHH`, and
  `\uHHHH` for non-surrogate code points;
* `\N{...}`, `\U`, and `\u` naming a surrogate are treated as
  unresolvable (`none`) — named escapes would need the Unicode name
  database and lone surrogates are not representable as a Lean `Char`;
* a raw newline, carriage return, or NUL makes the compilation of the
  literal fail (`none`), as it does in Python source;
* newlines between adjacent literals are not modelled (the inputs this
  decoder receives are single physical lines). -/
def pyLiteralEval (content : List Char) : Option (List Char) :=
  pyScan PyState.lit content

/-- The `except` fallback of `_parse_po_string`: the literal best-effort
unescape `content.replace('\\"', '"').replace('\\n', '\n')
.replace('\\t', '\t').replace('\\\\', '\\')` of only the four known
sequences, in that order. -/
def pyFallback (content : List Char) : List Char :=
  replPair '\\' '\\' ['\\']
    (replPair '\\' 't' ['\t']
      (replPair '\\' 'n' ['\n']
        (replPair '\\' '"' ['"'] content)))

/-- The content of a quote-delimited line as `_parse_po_string` sees
it: the stripped line without its delimiting quotes (`line[1:-1]`). -/
def po_line_content (line : List Char) : List Char :=
  ((pyStrip line).drop 1).dropLast

/-- `_parse_po_string` (source lines 567–575): strip the line; if it is
delimited by double quotes, evaluate the inner content as a Python
string literal, falling back to `pyFallback` when that fails; any other
line yields the empty string. -/
def parse_po_string (line : List Char) : List Char :=
  if 2 ≤ (pyStrip line).length ∧ (pyStrip line).headD ' ' = '"' ∧
      (pyStrip line).getLastD ' ' = '"' then
    match pyLiteralEval (po_line_content line) with
    | some r => r
    | none => pyFallback (po_line_content line)
  else []

/-- The body of `po_escape` before the quotes are added: the chain
`s.replace('\\', '\\\\').replace('"', '\\"').replace('\r\n', '\n')
.replace('\r', '\n').replace('\n', '\\n').replace('\t', '\\t')`. -/
def poEscContent (s : List Char) : List Char :=
  replChar '\t' ['\\', 't']
    (replChar '\n' ['\\', 'n']
      (replChar '\r' ['\n']
        (replPair '\r' '\n' ['\n']
          (replChar '"' ['\\', '"']
            (replChar '\\' ['\\', '\\'] s)))))

/-- `po_escape` (source lines 559–563): escape backslash, then quote,
normalize CRLF and CR to a newline, encode newline and tab, and wrap
the result in double quotes (`f'"{s}"'`). -/
def po_escape (s : List Char) : List Char :=
  '"' :: poEscContent s ++ ['"']

/-! ## Text normalization utilities -/

/-- Split at the first `]]>`: returns the part before it and the part
after it, or `none` when no `]]>` occurs.  Helper for the non-greedy
group of the CDATA pattern `<!\[CDATA\[(.*?)\]\]>`. -/
def splitAtCDataClose : List Char → Option (List Char × List Char)
  | [] => none
  | c :: t =>
    if [']', ']', '>'].isPrefixOf (c :: t) then some ([], t.drop 2)
    else Option.map (fun p => (c :: p.1, p.2)) (splitAtCDataClose t)

/-- `re.sub(r'<!\[CDATA\[(.*?)\]\]>', r'\1', s, flags=re.DOTALL)`:
remove each CDATA wrapper, keeping the inner text.  Fuel-driven
scanner; every step consumes at least one character, so the wrapper's
fuel `s.length` is never exhausted. -/
def cdataStripGo : Nat → List Char → List Char
  | 0, l => l
  | _ + 1, [] => []
  | f + 1, c :: t =>
    if "<![CDATA[".data.isPrefixOf (c :: t) then
      match splitAtCDataClose (t.drop 8) with
      | some (inner, after) => inner ++ cdataStripGo f after
      | none => c :: cdataStripGo f t
    else c :: cdataStripGo f t

/-- CDATA wrapper removal (see `cdataStripGo`). -/
def cdataStrip (l : List Char) : List Char := cdataStripGo l.length l

/-- Modelled from the Python standard library: `html.unescape`,
restricted to the core named entities `&amp; &lt; &gt; &quot; &apos;
&nbsp;` and decimal / hexadecimal numeric character references with a
terminating semicolon.  Other ampersand sequences are left unchanged
(as `html.unescape` leaves unknown entities unchanged); HTML5's
semicolon-less forms and the full named-entity table are not modelled —
no string considered in this development contains an ampersand. -/
def htmlUnescapeGo : Nat → List Char → List Char
  | 0, l => l
  | _ + 1, [] => []
  | f + 1, c :: t =>
    if c = '&' then
      if "amp;".data.isPrefixOf t then '&' :: htmlUnescapeGo f (t.drop 4)
      else if "lt;".data.isPrefixOf t then '<' :: htmlUnescapeGo f (t.drop 3)
      else if "gt;".data.isPrefixOf t then '>' :: htmlUnescapeGo f (t.drop 3)
      else if "quot;".data.isPrefixOf t then '"' :: htmlUnescapeGo f (t.drop 5)
      else if "apos;".data.isPrefixOf t then '\'' :: htmlUnescapeGo f (t.drop 5)
      else if "nbsp;".data.isPrefixOf t then Char.ofNat 160 :: htmlUnescapeGo f (t.drop 5)
      else if "#".data.isPrefixOf t then
        let body := t.drop 1
        let hex := "x".data.isPrefixOf body || "X".data.isPrefixOf body
        let digits := if hex then (body.drop 1).takeWhile isHexDigitChar
                      else body.takeWhile Char.isDigit
        let rest := if hex then (body.drop 1).drop digits.length else body.drop digits.length
        if digits ≠ [] ∧ ";".data.isPrefixOf rest then
          let n := if hex then digits.foldl (fun a d => 16 * a + hexVal d) 0
                   else digits.foldl (fun a d => 10 * a + (d.toNat - '0'.toNat)) 0
          Char.ofNat n :: htmlUnescapeGo f (rest.drop 1)
        else '&' :: htmlUnescapeGo f t
      else '&' :: htmlUnescapeGo f t
    else c :: htmlUnescapeGo f t

/-- `html.unescape` (see `htmlUnescapeGo`). -/
def htmlUnescape (l : List Char) : List Char := htmlUnescapeGo l.length l

/-- Modelled from the Python standard library:
`unicodedata.normalize("NFKC", s)`.  Modelled as the identity, which is
correct exactly on NFKC-normal strings; every string considered in this
development is ASCII or precomposed NFC/NFKC-normal Latin text, on
which NFKC acts as the identity.  The full normalization (compatibility
decomposition plus canonical composition over the Unicode character
database) is not representable here. -/
def nfkc (l : List Char) : List Char := l

/-- Find the first `>` in the list, requiring at least one character
before it; returns the part after the `>`.  Helper for the alternative
`<[^>]+>` of `MARKDOWN_HTML_TAG_RE` (the pattern's `[^>]+` is a
nonempty run of non-`>` characters followed by `>`). -/
def splitAtGt (l : List Char) : Option (List Char) :=
  match l.dropWhile (fun c => c ≠ '>') with
  | '>' :: after => if (l.takeWhile (fun c => c ≠ '>')) = [] then none else some after
  | _ => none

/-- `MARKDOWN_HTML_TAG_RE.sub('', s)` where `MARKDOWN_HTML_TAG_RE` is
the alternation of `<[^>]+>`, a stray CDATA opener, a stray CDATA
closer, and the markdown emphasis markers (double star, double
underscore, star, underscore, backquote, double tilde): remove all of
them, trying the alternatives in the pattern's order at each position
(leftmost match first).  Fuel-driven scanner, fuel as in
`cdataStripGo`. -/
def mdHtmlStripGo : Nat → List Char → List Char
  | 0, l => l
  | _ + 1, [] => []
  | f + 1, c :: t =>
    if c = '<' then
      match splitAtGt t with
      | some after => mdHtmlStripGo f after
      | none =>
        if "![CDATA[".data.isPrefixOf t then mdHtmlStripGo f (t.drop 8)
        else c :: mdHtmlStripGo f t
    else if "]]>".data.isPrefixOf (c :: t) then mdHtmlStripGo f (t.drop 2)
    else if "**".data.isPrefixOf (c :: t) then mdHtmlStripGo f (t.drop 1)
    else if "__".data.isPrefixOf (c :: t) then mdHtmlStripGo f (t.drop 1)
    else if c = '*' || c = '_' || c = '`' then mdHtmlStripGo f t
    else if "~~".data.isPrefixOf (c :: t) then mdHtmlStripGo f (t.drop 1)
    else c :: mdHtmlStripGo f t

/-- `MARKDOWN_HTML_TAG_RE.sub('', s)` (see `mdHtmlStripGo`). -/
def mdHtmlStrip (l : List Char) : List Char := mdHtmlStripGo l.length l

/-- `strip_formatting_and_normalize_ws` (source lines 459–465): strip
CDATA wrappers, decode HTML entities, strip markup/markdown markers,
NFKC-normalize, and collapse whitespace. -/
def strip_formatting_and_normalize_ws (s : List Char) : List Char :=
  if s = [] then []
  else pyStrip (pyJoinSplit (nfkc (mdHtmlStrip (htmlUnescape (cdataStrip s)))))

/-! ## Placeholders (`PLACEHOLDER_RE`) -/

/-- Match `PLACEHOLDER_RE` at the head of the list.
`PLACEHOLDER_PATTERNS = [r"%\d+\$[sd@]", r"%lld", r"%[sd@u%]"]`, tried
in order; returns the matched text and the rest. -/
def phMatch (l : List Char) : Option (List Char × List Char) :=
  match l with
  | '%' :: r =>
    let alt3 : Option (List Char × List Char) :=
      match r with
      | c :: rest =>
        if c = 's' || c = 'd' || c = '@' || c = 'u' || c = '%' then some (['%', c], rest)
        else none
      | [] => none
    let alt2 : Option (List Char × List Char) :=
      if "lld".data.isPrefixOf r then some ("%lld".data, r.drop 3) else alt3
    let ds := r.takeWhile Char.isDigit
    if ds ≠ [] then
      match r.drop ds.length with
      | '$' :: c :: rest =>
        if c = 's' || c = 'd' || c = '@' then some ('%' :: ds ++ ['$', c], rest) else alt2
      | _ => alt2
    else alt2
  | _ => none

/-- `PLACEHOLDER_RE.sub(rep, s)`: replace every placeholder occurrence
(leftmost, non-overlapping) by `rep`.  Fuel-driven scanner, fuel as in
`cdataStripGo`. -/
def phSubGo (rep : List Char) : Nat → List Char → List Char
  | 0, l => l
  | _ + 1, [] => []
  | f + 1, c :: t =>
    match phMatch (c :: t) with
    | some (_, rest) => rep ++ phSubGo rep f rest
    | none => c :: phSubGo rep f t

/-- `PLACEHOLDER_RE.sub(rep, s)` (see `phSubGo`). -/
def phSub (rep : List Char) (l : List Char) : List Char := phSubGo rep l.length l

/-- `normalize_placeholders` (source line 476–477): substitute the token
`{PH}` for every placeholder. -/
def normalize_placeholders (s : List Char) : List Char := phSub "{PH}".data s

/-- `remove_placeholders` (source lines 479–481): blank out every
placeholder, then collapse whitespace. -/
def remove_placeholders (s : List Char) : List Char :=
  pyStrip (pyJoinSplit (phSub [' '] s))

/-- The list of `PLACEHOLDER_RE` matches, in order
(`extract_placeholders_list`, source lines 483–485). -/
def phListGo : Nat → List Char → List (List Char)
  | 0, _ => []
  | _ + 1, [] => []
  | f + 1, c :: t =>
    match phMatch (c :: t) with
    | some (m, rest) => m :: phListGo f rest
    | none => phListGo f t

/-- `extract_placeholders_list` (see `phListGo`). -/
def extract_placeholders_list (s : List Char) : List (List Char) :=
  if s = [] then [] else phListGo s.length s

/-! ## Words (`WORD_RE`) -/

/-- The `(?:-[\w]+)*` tail of `WORD_RE`: consume as many
hyphen-plus-word-run groups as possible; returns the consumed text and
the rest. -/
def hyphChain : Nat → List Char → List Char × List Char
  | 0, l => ([], l)
  | f + 1, l =>
    match l with
    | '-' :: r =>
      let w := r.takeWhile isWordChar
      if w = [] then ([], l)
      else
        let p := hyphChain f (r.dropWhile isWordChar)
        ('-' :: w ++ p.1, p.2)
    | _ => ([], l)

/-- `WORD_RE.findall(s)` with `WORD_RE = [\w]+(?:-[\w]+)*`: the maximal
word runs of `s`, hyphen-joined runs counting as one word.  Fuel-driven
scanner, fuel as in `cdataStripGo`. -/
def findWordsGo : Nat → List Char → List (List Char)
  | 0, _ => []
  | _ + 1, [] => []
  | f + 1, c :: t =>
    if isWordChar c then
      let w0 := (c :: t).takeWhile isWordChar
      let p := hyphChain f ((c :: t).dropWhile isWordChar)
      (w0 ++ p.1) :: findWordsGo f p.2
    else findWordsGo f t

/-- `WORD_RE.findall(s)` (see `findWordsGo`). -/
def findWords (s : List Char) : List (List Char) := findWordsGo s.length s

/-! ## Canonicalizer and divergence engine -/

/-- `_normalize_end_punctuation_except_q` (source lines 487–496):
normalize, remember a trailing question mark separately, and strip
trailing sentence punctuation otherwise. -/
def normalize_end_punctuation_except_q (s : List Char) : List Char × Bool :=
  if s = [] then ([], false)
  else if strip_formatting_and_normalize_ws s = [] then ([], false)
  else if (strip_formatting_and_normalize_ws s).getLastD ' ' = '?' then
    (pyRstrip (strip_formatting_and_normalize_ws s).dropLast, true)
  else
    (rstripWhile (fun c => c = '.' || c = '!' || c = '…' || isPyWS c)
      (strip_formatting_and_normalize_ws s), false)

/-- `canonicalize_msgid` (source lines 498–507): returns the canonical
matching key and the display form. -/
def canonicalize_msgid (m : List Char) : List Char × List Char :=
  if m = [] then ([], [])
  else
    (pyJoinSplit
      (pyLowerStr
          (normalize_end_punctuation_except_q
            (normalize_placeholders (strip_formatting_and_normalize_ws m))).1 ++
        (if (normalize_end_punctuation_except_q
              (normalize_placeholders (strip_formatting_and_normalize_ws m))).2
         then "{Q}".data else [])),
     strip_formatting_and_normalize_ws m)

/-- The trailing-interrogative flag computed inside
`canonicalize_msgid`: whether the normalized, placeholder-tokenized
text ends with a question mark (the second component of
`_normalize_end_punctuation_except_q` on the pipeline's intermediate
string). -/
def ends_interrogative (m : List Char) : Bool :=
  (normalize_end_punctuation_except_q
    (normalize_placeholders (strip_formatting_and_normalize_ws m))).2

/-- `get_word_count_from_display` (source lines 509–513): number of
`WORD_RE` words after blanking placeholders. -/
def get_word_count_from_display (display : List Char) : Nat :=
  if display = [] then 0
  else ((findWords (phSub [' '] display)).filter (fun w => w ≠ [])).length

/-- `_placeholder_stripped_equal` (source lines 515–522): equal
placeholder counts, equal trailing-question flags, and equal
lowercased punctuation-stripped placeholder-free text. -/
def placeholder_stripped_equal (s1 s2 : List Char) : Bool :=
  if (extract_placeholders_list s1).length ≠ (extract_placeholders_list s2).length then false
  else if (normalize_end_punctuation_except_q (remove_placeholders s1)).2 ≠
      (normalize_end_punctuation_except_q (remove_placeholders s2)).2 then false
  else pyLowerStr (normalize_end_punctuation_except_q (remove_placeholders s1)).1 =
    pyLowerStr (normalize_end_punctuation_except_q (remove_placeholders s2)).1

/-- `get_word_set` (source lines 524–529).  The Python `set` of
lowercased words is modelled as a deduplicated list: membership and
cardinality — all that `check_divergence` uses — agree with the set
semantics. -/
def get_word_set (translation : List Char) : List (List Char) :=
  if translation = [] then []
  else
    (((findWords (remove_placeholders (strip_formatting_and_normalize_ws translation))).filter
        (fun w => w ≠ [])).map pyLowerStr).dedup

/-- `SIMILARITY_THRESHOLD = 0.70` (source line 41).  Python's float
arithmetic on the Jaccard ratios of small word sets is exact enough
that the comparison against the threshold agrees with exact rational
arithmetic, which is how similarity is modelled here. -/
def SIMILARITY_THRESHOLD : ℚ := 7 / 10

/-- The Jaccard index of two finite sets given as deduplicated lists:
intersection cardinality over union cardinality. -/
def jaccard_index (w1 w2 : List (List Char)) : ℚ :=
  ((w1.filter (fun w => w ∈ w2)).length : ℚ) / (((w1 ++ w2).dedup).length : ℚ)

/-- `check_divergence` (source lines 531–539): placeholder-tolerant
structural equality short-circuit, the both-empty edge case, then the
Jaccard index against the threshold. -/
def check_divergence (msgstr1 msgstr2 : List Char) : Bool × ℚ :=
  if placeholder_stripped_equal msgstr1 msgstr2 then (false, 1)
  else if get_word_set msgstr1 = [] ∧ get_word_set msgstr2 = [] then (false, 1)
  else
    (decide
      ((if ((get_word_set msgstr1 ++ get_word_set msgstr2).dedup) = [] then (0 : ℚ)
        else (((get_word_set msgstr1).filter (fun w => w ∈ get_word_set msgstr2)).length : ℚ) /
          (((get_word_set msgstr1 ++ get_word_set msgstr2).dedup).length : ℚ)) <
        SIMILARITY_THRESHOLD),
     if ((get_word_set msgstr1 ++ get_word_set msgstr2).dedup) = [] then (0 : ℚ)
     else (((get_word_set msgstr1).filter (fun w => w ∈ get_word_set msgstr2)).length : ℚ) /
       (((get_word_set msgstr1 ++ get_word_set msgstr2).dedup).length : ℚ))

/-- Substitute, in order, the `i`-th placeholder occurrence of `s` by
the `i`-th element of `subs` (the loop over
`PLACEHOLDER_RE.finditer(source_msgstr)` of
`adapt_placeholders_using_msgids`).  Fuel-driven scanner, fuel as in
`cdataStripGo`. -/
def phSubstListGo : Nat → List Char → List (List Char) → List Char
  | 0, l, _ => l
  | _ + 1, [], _ => []
  | f + 1, c :: t, subs =>
    match phMatch (c :: t) with
    | some (_, rest) => subs.headD [] ++ phSubstListGo f rest subs.tail
    | none => c :: phSubstListGo f t subs

/-- `adapt_placeholders_using_msgids` (source lines 541–557): when the
two msgids agree after placeholder removal and the msgstr carries as
many placeholders as the target msgid, rewrite the msgstr's
placeholders into the target's ones, in order. -/
def adapt_placeholders_using_msgids (source_msgstr source_msgid target_msgid : List Char) :
    List Char :=
  if source_msgstr = [] ∨ source_msgid = [] ∨ target_msgid = [] then source_msgstr
  else
    let strippedSource := strip_formatting_and_normalize_ws (remove_placeholders source_msgid)
    let strippedTarget := strip_formatting_and_normalize_ws (remove_placeholders target_msgid)
    if strippedSource ≠ strippedTarget then source_msgstr
    else
      let sourcePh := extract_placeholders_list source_msgstr
      let targetIdPh := extract_placeholders_list target_msgid
      if sourcePh = [] ∨ targetIdPh = [] then source_msgstr
      else if sourcePh.length ≠ targetIdPh.length then source_msgstr
      else phSubstListGo source_msgstr.length source_msgstr targetIdPh

/-! ## Document splitter (`split_file_into_entries`) -/

/-- A line whose left-stripped content begins the key declaration
token `msgid ` (an entry boundary of the splitter). -/
def isMsgidDecl (ln : List Char) : Bool :=
  "msgid ".data.isPrefixOf (pyLstrip ln)

/-- The boundary indices
`[idx for idx, ln in enumerate(lines) if ln.lstrip().startswith("msgid ")]`. -/
def msgid_indices (lines : List (List Char)) : List Nat :=
  (List.range lines.length).filter (fun i => isMsgidDecl (lines.getD i []))

/-- The block-building loop of `split_file_into_entries`: each boundary
index yields the slice from it up to the next boundary, or up to the
end of the file for the last one. -/
def buildBlocks (lines : List (List Char)) : List Nat → List (List (List Char))
  | [] => []
  | start :: rest =>
    let stop := match rest with
      | [] => lines.length
      | nxt :: _ => nxt
    ((lines.drop start).take (stop - start)) :: buildBlocks lines rest

/-- `split_file_into_entries` (source lines 651–659): partition the raw
lines into a preamble and the entry blocks. -/
def split_file_into_entries (lines : List (List Char)) :
    List (List Char) × List (List (List Char)) :=
  match msgid_indices lines with
  | [] => (lines, [])
  | i0 :: rest => (lines.take i0, buildBlocks lines (i0 :: rest))

/-! ## Entry parser (`parse_entry_block`) -/

/-- The accumulation state of the `parse_entry_block` line loop:
fragment lists for msgid and msgstr, an insertion-ordered association
list for the plural fragments (Python's `dict` with `setdefault`), the
current state tag, and the current plural index (`none` models the
sentinel `-1`). -/
inductive PTag | pnone | pmsgid | pmsgstr | pplural
deriving DecidableEq

structure PAcc where
  msgid : List (List Char)
  msgstr : List (List Char)
  plurals : List (Nat × List (List Char))
  tag : PTag
  curr : Option Nat

/-- `plurals.setdefault(n, []).append(frag)` on the insertion-ordered
association list. -/
def pluralAppend : List (Nat × List (List Char)) → Nat → List Char →
    List (Nat × List (List Char))
  | [], n, frag => [(n, [frag])]
  | (k, fs) :: rest, n, frag =>
    if k = n then (k, fs ++ [frag]) :: rest else (k, fs) :: pluralAppend rest n frag

/-- The header match `re.match(r'msgstr\[(\d+)\]\s*(.*)', s)`: digits,
a closing bracket, optional whitespace, then the rest of the line (the
`.*` stops at a newline, which a stripped line cannot contain). -/
def pluralHeader (s : List Char) : Option (Nat × List Char) :=
  if "msgstr[".data.isPrefixOf s then
    let r := s.drop 7
    let ds := r.takeWhile Char.isDigit
    if ds = [] then none
    else
      match r.drop ds.length with
      | ']' :: rest =>
        some (ds.foldl (fun a d => 10 * a + (d.toNat - '0'.toNat)) 0,
          (rest.dropWhile isPyWS).takeWhile (fun c => c ≠ '\n'))
      | _ => none
  else none

/-- One iteration of the `parse_entry_block` line loop (source lines
666–679). -/
def pStep (acc : PAcc) (ln : List Char) : PAcc :=
  let s := pyStrip ln
  if s = [] || "#".data.isPrefixOf s then acc
  else if "msgid ".data.isPrefixOf s then
    { acc with tag := PTag.pmsgid, msgid := acc.msgid ++ [s.drop 6] }
  else if "msgstr[".data.isPrefixOf s then
    match pluralHeader s with
    | some (n, frag) =>
      { acc with
        tag := PTag.pplural
        curr := some n
        plurals := pluralAppend acc.plurals n frag }
    | none => { acc with tag := PTag.pplural, curr := none }
  else if "msgstr ".data.isPrefixOf s then
    { acc with tag := PTag.pmsgstr, msgstr := acc.msgstr ++ [s.drop 7] }
  else if "\"".data.isPrefixOf s && "\"".data.isSuffixOf s then
    match acc.tag with
    | PTag.pmsgid => { acc with msgid := acc.msgid ++ [s] }
    | PTag.pmsgstr => { acc with msgstr := acc.msgstr ++ [s] }
    | PTag.pplural =>
      match acc.curr with
      | some n => { acc with plurals := pluralAppend acc.plurals n s }
      | none => acc
    | PTag.pnone => acc
  else { acc with tag := PTag.pnone, curr := none }

/-- `parse_entry_block` (source lines 661–684): walk the block's lines
and decode the accumulated fragments with `_parse_po_string`, giving
the msgid, the msgstr and the plural values. -/
def parse_entry_block (block : List (List Char)) :
    List Char × List Char × List (Nat × List Char) :=
  let acc := block.foldl pStep
    { msgid := [], msgstr := [], plurals := [], tag := PTag.pnone, curr := none }
  (if acc.msgid = [] then [] else (acc.msgid.map parse_po_string).flatten,
   if acc.msgstr = [] then [] else (acc.msgstr.map parse_po_string).flatten,
   acc.plurals.map (fun p => (p.1, (p.2.map parse_po_string).flatten)))

/-! ## Block patcher (`replace_msgstr_in_block`, `ensure_fuzzy_flag`) -/

/-- The first loop of `replace_msgstr_in_block` (source lines 691–699),
as a state machine: when the flag is set, a replacement just happened
and quoted continuation lines are being dropped.  Returns the rewritten
lines and whether any replacement happened. -/
def replLoop (target newTail : List Char) : Bool → List (List Char) →
    List (List Char) × Bool
  | _, [] => ([], false)
  | skipping, ln :: rest =>
    let s := pyLstrip ln
    if skipping && "\"".data.isPrefixOf s then replLoop target newTail true rest
    else if target.isPrefixOf s then
      let indent := ln.take (ln.length - s.length)
      ((indent ++ newTail) :: (replLoop target newTail true rest).1, true)
    else
      let p := replLoop target newTail false rest
      (ln :: p.1, p.2)

/-- The trigger condition of the insertion loop of
`replace_msgstr_in_block` (source line 710): a `msgid ` line, or a
quoted line directly preceded by a `msgid ` or quoted line. -/
def insTrigger (prev : Option (List Char)) (ln : List Char) : Bool :=
  let s := pyLstrip ln
  "msgid ".data.isPrefixOf s ||
    ("\"".data.isPrefixOf s &&
      (match prev with
       | some p => "msgid ".data.isPrefixOf (pyLstrip p) || "\"".data.isPrefixOf (pyLstrip p)
       | none => false))

/-- The insertion loop of `replace_msgstr_in_block` (source lines
705–714), as a state machine: when the flag is set, a trigger just
fired and quoted continuation lines are being copied; the new line is
emitted when they run out.  `prev` is the previously copied line.
Returns the rewritten lines and whether an insertion happened. -/
def insLoop (lineToAdd : List Char) : Bool → Option (List Char) → List (List Char) →
    List (List Char) × Bool
  | false, _, [] => ([], false)
  | true, _, [] => ([lineToAdd], true)
  | false, prev, ln :: rest =>
    let trig := insTrigger prev ln
    let p := insLoop lineToAdd trig (some ln) rest
    (ln :: p.1, trig || p.2)
  | true, prev, ln :: rest =>
    if "\"".data.isPrefixOf (pyLstrip ln) then
      (ln :: (insLoop lineToAdd true (some ln) rest).1, true)
    else
      let trig := insTrigger prev ln
      let p := insLoop lineToAdd trig (some ln) rest
      (lineToAdd :: ln :: p.1, true)

/-- `replace_msgstr_in_block` (source lines 686–717): replace the
`msgstr ` (or `msgstr[i] `) line and its quoted continuation lines by a
single re-encoded line, preserving that line's indentation; when no
such line exists, insert one after the key declaration and its
continuation lines, or at the end of the block as a last resort.  The
Python function builds a fresh list and only reads its `block`
argument. -/
def replace_msgstr_in_block (block : List (List Char)) (newMsgstr : Option (List Char))
    (pluralIndex : Option Nat) : List (List Char) :=
  let target := match pluralIndex with
    | some i => "msgstr[".data ++ (Nat.repr i).data ++ "] ".data
    | none => "msgstr ".data
  let esc := po_escape (newMsgstr.getD [])
  let r := replLoop target (target ++ esc ++ ['\n']) false block
  if r.2 then r.1
  else
    let lineToAdd := target ++ esc ++ ['\n']
    let p := insLoop lineToAdd false none r.1
    if p.2 then p.1 else r.1 ++ [lineToAdd]

/-- The scan loop of `ensure_fuzzy_flag` (source lines 720–729):
returns whether a flags line whose comma-separated list contains the
exact token `fuzzy` was found, the index of the last flags line seen,
and `first_code` (the index of the first non-comment line; unused by
the reconstruction).  `i` is the running index. -/
def fuzzyScanGo (i : Nat) (fidx : Option Nat) : List (List Char) →
    Bool × Option Nat × Nat
  | [] => (false, fidx, i)
  | ln :: rest =>
    let ls := pyLstrip ln
    if ¬ "#".data.isPrefixOf ls then (false, fidx, i)
    else if "#,".data.isPrefixOf ls then
      if "fuzzy".data ∈ pySplitComma ls then (true, some i, 0)
      else fuzzyScanGo (i + 1) (some i) rest
    else fuzzyScanGo (i + 1) fidx rest

/-- The scan of `ensure_fuzzy_flag` over a whole block. -/
def fuzzyScan (block : List (List Char)) : Bool × Option Nat × Nat :=
  fuzzyScanGo 0 none block

/-- Whether the scan of `ensure_fuzzy_flag` recognises the block as
already carrying the review marker. -/
def fuzzy_found (block : List (List Char)) : Bool := (fuzzyScan block).1

/-- `ensure_fuzzy_flag` (source lines 719–744): if the scan finds the
marker, return the block unchanged; if a flags line exists, rewrite it
with the marker prepended to its existing flags; otherwise insert a new
flags line at the top, reusing the first line's indentation.

The Python function performs these updates *in place* on its `block`
argument (`block[flags_idx] = ...`, `block.insert(0, ...)`) and returns
that same list object; this embedding returns the final state of
`block`, which is therefore also the state of the caller's argument
after the call. -/
def ensure_fuzzy_flag (block : List (List Char)) : List (List Char) :=
  let sc := fuzzyScan block
  if sc.1 then block
  else
    match sc.2.1 with
    | some i =>
      let ln := block.getD i []
      let ls := pyLstrip ln
      let indent := ln.take (ln.length - ls.length)
      let exist := pyStrip (ls.drop 2)
      block.set i
        (if exist = [] then indent ++ "#, fuzzy\n".data
         else indent ++ "#, fuzzy, ".data ++ exist ++ ['\n'])
    | none =>
      let indent := match block with
        | [] => []
        | b0 :: _ => b0.take (b0.length - (pyLstrip b0).length)
      (indent ++ "#, fuzzy\n".data) :: block

/-- The state of the `block` argument of `ensure_fuzzy_flag` after the
call: the source mutates the argument in place and returns it, so the
argument's post-state is the returned list (see `ensure_fuzzy_flag`). -/
def ensure_fuzzy_flag_arg_after (block : List (List Char)) : List (List Char) :=
  ensure_fuzzy_flag block

/-- The state of the `block` argument of `replace_msgstr_in_block`
after the call: the source only reads `block` (it assembles fresh
`out` / `res` lists and never assigns into its argument), so the
argument's post-state is its initial state. -/
def replace_msgstr_in_block_arg_after (block : List (List Char))
    (newMsgstr : Option (List Char)) (pluralIndex : Option Nat) : List (List Char) :=
  let _ := replace_msgstr_in_block block newMsgstr pluralIndex
  block

/-! ## Fill (`run_fill`, per-block body) -/

/-- The emptiness test of the fill loop (source line 1423):
`not fstr.strip() and (not plurals or not any(v.strip() for v in
plurals.values()))`, computed from the parse of the block. -/
def target_empty (block : List (List Char)) : Bool :=
  let p := parse_entry_block block
  (pyStrip p.2.1).isEmpty &&
    (p.2.2.isEmpty || !(p.2.2.any (fun q => !(pyStrip q.2).isEmpty)))

/-- Whether the block declares a `msgstr[0]` line (source line 1448). -/
def has_plural0 (block : List (List Char)) : Bool :=
  block.any (fun l => "msgstr[0]".data.isPrefixOf (pyLstrip l))

/-- The per-block body of the fill loop of `run_fill` (source lines
1418–1452), restricted to the block it appends to `updated_blocks`: the
source map is the abstract lookup built by
`build_translation_map_for_fill` (canonical key to source msgid and
msgstr), `egyszavas` is the caller-supplied single-word override.  The
loop's other effects (the divergence record taken in the non-empty
branch and the fill counter) do not touch the block, which is appended
unchanged on every path but the last; in the fill path the source first
takes a copy (`list(block)`), patches it with `replace_msgstr_in_block`
and flags it with `ensure_fuzzy_flag`. -/
def fill_one (srcMap : List Char → Option (List Char × List Char)) (egyszavas : Bool)
    (block : List (List Char)) : List (List Char) :=
  if (parse_entry_block block).1 = [] then block
  else
    match srcMap (canonicalize_msgid (parse_entry_block block).1).1 with
    | none => block
    | some sv =>
      if !(target_empty block) then block
      else if (pyStrip sv.2).isEmpty then block
      else if !egyszavas &&
          get_word_count_from_display (canonicalize_msgid (parse_entry_block block).1).2 ≤ 1
        then block
      else
        ensure_fuzzy_flag
          (replace_msgstr_in_block block
            (some
              (if (extract_placeholders_list sv.1).length =
                  (extract_placeholders_list (parse_entry_block block).1).length
               then adapt_placeholders_using_msgids sv.2 sv.1 (parse_entry_block block).1
               else sv.2))
            (if has_plural0 block then some 0 else none))

/-! ## Theorems -/

/-- C4: the claim states that `ensure_fuzzy_flag` is idempotent and a
no-op on a block already carrying the review marker.  The code violates
this: its marker test `"fuzzy" in ls.split(',')` compares the raw
comma-separated fields — which keep their surrounding spaces and the
trailing newline — against the exact string `fuzzy`, so the flags line
`#, fuzzy\n` that `ensure_fuzzy_flag` itself writes is never
recognised, and a second application rewrites it to
`#, fuzzy, fuzzy\n`.  This theorem evaluates the code at the failing
input: applying the flagger twice to a plain entry block differs from
applying it once, and one application to a block already flagged
`#, fuzzy` is not a no-op. -/
theorem C4_ensure_fuzzy_flag_not_idempotent :
    ensure_fuzzy_flag (ensure_fuzzy_flag ["msgid \"a\"\n".data, "msgstr \"x\"\n".data]) ≠
      ensure_fuzzy_flag ["msgid \"a\"\n".data, "msgstr \"x\"\n".data] ∧
    ensure_fuzzy_flag ["#, fuzzy\n".data, "msgid \"a\"\n".data, "msgstr \"x\"\n".data] ≠
      ["#, fuzzy\n".data, "msgid \"a\"\n".data, "msgstr \"x\"\n".data] := by
  decide

/-- C5 counterexample: the claim states that both block-patcher
operations leave their input block unchanged.  `ensure_fuzzy_flag`
mutates its argument in place (`block[flags_idx] = ...`,
`block.insert(0, ...)`) and returns that same list, so after a call on
a block without the marker the caller's list has changed. -/
theorem C5_counterexample :
    ensure_fuzzy_flag_arg_after ["msgid \"b\"\n".data, "msgstr \"\"\n".data] ≠
      ["msgid \"b\"\n".data, "msgstr \"\"\n".data] := by
  decide

/-- C5 (amended): `replace_msgstr_in_block` is non-mutating — it only
reads its argument, whose post-call state is its initial state — while
`ensure_fuzzy_flag` mutates its argument in place and returns it; the
argument is left unchanged exactly on the no-op path, i.e. when the
flag scan already finds the `fuzzy` token. -/
theorem C5_patcher_mutation (b b2 : List (List Char)) (v : Option (List Char))
    (i : Option Nat) :
    replace_msgstr_in_block_arg_after b v i = b ∧
    (fuzzy_found b2 = true → ensure_fuzzy_flag_arg_after b2 = b2) := by
  refine ⟨rfl, fun h => ?_⟩
  unfold ensure_fuzzy_flag_arg_after ensure_fuzzy_flag
  simp only [fuzzy_found] at h
  simp [h]

/-- C5 witness: the amended statement at concrete blocks; the flags
line `#,fuzzy,x` is one the scan recognises. -/
theorem C5_patcher_mutation_witness :
    replace_msgstr_in_block_arg_after ["msgid \"a\"\n".data] (some "x".data) none =
      ["msgid \"a\"\n".data] ∧
    ensure_fuzzy_flag_arg_after ["#,fuzzy,x\n".data, "msgid \"a\"\n".data] =
      ["#,fuzzy,x\n".data, "msgid \"a\"\n".data] := by
  have h := C5_patcher_mutation ["msgid \"a\"\n".data]
    ["#,fuzzy,x\n".data, "msgid \"a\"\n".data] (some "x".data) none
  exact ⟨h.1, h.2 (by decide)⟩

/-- C9: `_parse_po_string` fails closed on every quote-delimited line:
the strict decoding is attempted, and whenever it is not possible the
function returns the literal best-effort unescape of only the four
known sequences instead of raising (in this embedding the strict
decoder is the `Option`-valued `pyLiteralEval`; the function is total,
and the fallback result returns unresolvable content as-is). -/
theorem C9_parse_po_string_fails_closed (line : List Char)
    (h : 2 ≤ (pyStrip line).length ∧ (pyStrip line).headD ' ' = '"' ∧
      (pyStrip line).getLastD ' ' = '"') :
    (∀ r, pyLiteralEval (po_line_content line) = some r → parse_po_string line = r) ∧
    (pyLiteralEval (po_line_content line) = none →
      parse_po_string line = pyFallback (po_line_content line)) := by
  unfold parse_po_string
  rw [if_pos h]
  constructor
  · intro r hr
    rw [hr]
  · intro hr
    rw [hr]

/-- C9 witness: the line `"a\"` (a trailing lone backslash escapes the
closing quote, so strict decoding fails) decodes to `a\` — the content
as-is, none of the four known sequences being present. -/
theorem C9_witness : parse_po_string "\"a\\\"".data = ['a', '\\'] := by
  have h := (C9_parse_po_string_fails_closed "\"a\\\"".data (by decide)).2 (by decide)
  rw [h]
  decide

/-- C10: when exactly one of the two word sets is empty (and the
placeholder-tolerant structural equality does not hold),
`check_divergence` reports maximal divergence: `(true, 0)`. -/
theorem C10_empty_vs_nonempty_maximal (a b : List Char)
    (hpse : placeholder_stripped_equal a b = false)
    (hone : (get_word_set a = [] ∧ get_word_set b ≠ []) ∨
      (get_word_set a ≠ [] ∧ get_word_set b = [])) :
    check_divergence a b = (true, 0) := by
  unfold check_divergence
  rw [hpse]
  have hinter : (get_word_set a).filter (fun w => w ∈ get_word_set b) = [] := by
    rcases hone with ⟨ha, _⟩ | ⟨_, hb⟩
    · rw [ha]; rfl
    · rw [hb]; simp
  have hcond : ¬(get_word_set a = [] ∧ get_word_set b = []) := by
    rcases hone with ⟨_, hb⟩ | ⟨ha, _⟩
    · exact fun hc => hb hc.2
    · exact fun hc => ha hc.1
  simp only [Bool.false_eq_true, if_false, if_neg hcond, hinter]
  simp only [List.length_nil, Nat.cast_zero, zero_div, ite_self]
  have h0 : (0 : ℚ) < SIMILARITY_THRESHOLD := by norm_num [SIMILARITY_THRESHOLD]
  simp [h0]

/-- C10 witness: an empty translation against `hello`. -/
theorem C10_witness : check_divergence [] "hello".data = (true, 0) :=
  C10_empty_vs_nonempty_maximal [] "hello".data (by decide) (Or.inl (by decide))

/-- C8: in default mode (`egyszavas = false`, the single-word override
not set), the fill loop leaves every block whose display form has at
most one word (placeholders excluded) unchanged — every branch of the
loop body, including the single-word skip, appends the block as-is. -/
theorem C8_fill_skips_single_word
    (srcMap : List Char → Option (List Char × List Char)) (block : List (List Char))
    (h : get_word_count_from_display
      (canonicalize_msgid (parse_entry_block block).1).2 ≤ 1) :
    fill_one srcMap false block = block := by
  unfold fill_one
  repeat' split
  all_goals try rfl
  all_goals simp_all

/-- C8 witness: the scenario block — source value `Delete`, empty
target value, default mode — is skipped (display word count 1). -/
theorem C8_witness :
    fill_one (fun k => if k = "delete".data then some ("Delete".data, "Törlés".data) else none)
      false ["msgid \"Delete\"\n".data, "msgstr \"\"\n".data] =
      ["msgid \"Delete\"\n".data, "msgstr \"\"\n".data] :=
  C8_fill_skips_single_word _ _ (by decide)

/-- The concatenation of the blocks built from a strictly increasing
index list reproduces the suffix of the file from the first index. -/
theorem buildBlocks_flatten (lines : List (List Char)) :
    ∀ idxs : List Nat, List.Pairwise (· < ·) idxs → idxs ≠ [] →
      (buildBlocks lines idxs).flatten = lines.drop (idxs.headD 0) := by
  intro idxs
  induction idxs with
  | nil => intro _ h; exact absurd rfl h
  | cons i rest ih =>
    intro hp _
    cases rest with
    | nil =>
      show ((lines.drop i).take (lines.length - i) :: buildBlocks lines []).flatten =
        lines.drop i
      simp only [buildBlocks, List.flatten_cons, List.flatten_nil, List.append_nil,
        List.headD_cons]
      rw [← List.length_drop, List.take_length]
    | cons j rest2 =>
      have hij : i < j := (List.pairwise_cons.mp hp).1 j (List.mem_cons_self _ _)
      have htail := ih (List.pairwise_cons.mp hp).2 (by simp)
      show ((lines.drop i).take (j - i) :: buildBlocks lines (j :: rest2)).flatten =
        lines.drop i
      rw [List.flatten_cons, htail]
      simp only [List.headD_cons]
      have hdj : lines.drop j = (lines.drop i).drop (j - i) := by
        rw [List.drop_drop]
        congr 1
        omega
      rw [hdj, List.take_append_drop]

/-- C1: `split_file_into_entries` is a pure partition — the preamble
followed by the concatenation of all blocks, in order, is exactly the
input line list — and when no line's left-stripped content starts with
`msgid `, the whole input is the preamble and the block list is
empty. -/
theorem C1_split_partition (lines : List (List Char)) :
    (split_file_into_entries lines).1 ++ (split_file_into_entries lines).2.flatten = lines ∧
    ((∀ ln ∈ lines, isMsgidDecl ln = false) →
      split_file_into_entries lines = (lines, [])) := by
  have hpair : List.Pairwise (· < ·) (msgid_indices lines) :=
    List.Pairwise.filter _ (List.pairwise_lt_range _)
  constructor
  · unfold split_file_into_entries
    cases hidx : msgid_indices lines with
    | nil => simp
    | cons i0 rest =>
      rw [buildBlocks_flatten lines (i0 :: rest) (hidx ▸ hpair) (by simp),
        List.headD_cons]
      exact List.take_append_drop i0 lines
  · intro hnone
    have hnil : msgid_indices lines = [] := by
      unfold msgid_indices
      apply List.filter_eq_nil_iff.mpr
      intro i hi
      have hlt : i < lines.length := List.mem_range.mp hi
      simp only [Bool.not_eq_true]
      show isMsgidDecl (lines.getD i []) = false
      rw [List.getD_eq_getElem _ _ hlt]
      exact hnone _ (List.getElem_mem hlt)
    unfold split_file_into_entries
    rw [hnil]

/-- C1 witness: a file with no key declaration is all preamble. -/
theorem C1_witness :
    split_file_into_entries ["# c\n".data, "x\n".data] = (["# c\n".data, "x\n".data], []) :=
  (C1_split_partition _).2 (by decide)

/-- Every path of the fill loop body either appends the block
unchanged or, when all value slots are empty, patches it through the
block patcher and the flagger. -/
theorem fill_one_characterization (srcMap : List Char → Option (List Char × List Char))
    (egyszavas : Bool) (block : List (List Char)) :
    fill_one srcMap egyszavas block = block ∨
    (target_empty block = true ∧
      ∃ v, fill_one srcMap egyszavas block =
        ensure_fuzzy_flag (replace_msgstr_in_block block (some v)
          (if has_plural0 block then some 0 else none))) := by
  unfold fill_one
  by_cases h1 : (parse_entry_block block).1 = []
  · rw [if_pos h1]; exact Or.inl rfl
  rw [if_neg h1]
  cases hsv : srcMap (canonicalize_msgid (parse_entry_block block).1).1 with
  | none => exact Or.inl rfl
  | some sv =>
    cases h2 : target_empty block with
    | false =>
      simp only [h2, Bool.not_false]
      rw [if_pos trivial]
      exact Or.inl rfl
    | true =>
      simp only [h2, Bool.not_true, Bool.false_eq_true, if_false]
      by_cases h3 : (pyStrip sv.2).isEmpty = true
      · rw [if_pos h3]; exact Or.inl rfl
      rw [if_neg h3]
      by_cases h4 : (!egyszavas && decide (get_word_count_from_display
          (canonicalize_msgid (parse_entry_block block).1).2 ≤ 1)) = true
      · rw [if_pos h4]; exact Or.inl rfl
      rw [if_neg h4]
      exact Or.inr ⟨trivial, _, rfl⟩

/-- C3: fill is conservative — a target block whose parsed value or
any plural variant is non-empty is returned byte-identical, and
whenever the loop changes a block at all, all of the block's value
slots were empty and the only change is one written value (into the
simple value slot, or the plural index-0 slot when the block declares a
`msgstr[0]` line) plus the review flag. -/
theorem C3_fill_conservative (srcMap : List Char → Option (List Char × List Char))
    (egyszavas : Bool) (block : List (List Char)) :
    (target_empty block = false → fill_one srcMap egyszavas block = block) ∧
    (fill_one srcMap egyszavas block ≠ block →
      target_empty block = true ∧
        ∃ v, fill_one srcMap egyszavas block =
          ensure_fuzzy_flag (replace_msgstr_in_block block (some v)
            (if has_plural0 block then some 0 else none))) := by
  have hc := fill_one_characterization srcMap egyszavas block
  constructor
  · intro hne
    rcases hc with h | ⟨hte, _⟩
    · exact h
    · rw [hne] at hte
      exact absurd hte (by simp)
  · intro hch
    rcases hc with h | h
    · exact absurd h hch
    · exact h

/-- C3 witness: a block with a non-empty value is untouched even when a
source exists; a block with an empty value is patched through the block
patcher into the simple value slot. -/
theorem C3_witness :
    fill_one (fun k => if k = "open settings".data
        then some ("Open settings".data, "Beállítások".data) else none) false
      ["msgid \"Open settings\"\n".data, "msgstr \"Régi\"\n".data] =
      ["msgid \"Open settings\"\n".data, "msgstr \"Régi\"\n".data] ∧
    (target_empty ["msgid \"Open settings\"\n".data, "msgstr \"\"\n".data] = true ∧
      ∃ v, fill_one (fun k => if k = "open settings".data
          then some ("Open settings".data, "Beállítások".data) else none) false
        ["msgid \"Open settings\"\n".data, "msgstr \"\"\n".data] =
        ensure_fuzzy_flag (replace_msgstr_in_block
          ["msgid \"Open settings\"\n".data, "msgstr \"\"\n".data] (some v)
          (if has_plural0 ["msgid \"Open settings\"\n".data, "msgstr \"\"\n".data]
           then some 0 else none))) :=
  ⟨(C3_fill_conservative _ _ _).1 (by decide),
   (C3_fill_conservative _ _ _).2 (by decide)⟩

/-- C7: outside the placeholder-tolerant equality short-circuit,
`check_divergence` returns `(false, 1)` when both word sets are empty
and otherwise returns the Jaccard index of the two word sets together
with a divergence verdict that holds exactly when that index is
strictly below the 0.70 threshold; on the scenario pair
`Open settings` / `Open the app settings now` the index is 2/5 and
divergence is flagged. -/
theorem C7_check_divergence_jaccard :
    (∀ a b : List Char, placeholder_stripped_equal a b = false →
      ((get_word_set a = [] ∧ get_word_set b = []) → check_divergence a b = (false, 1)) ∧
      (¬(get_word_set a = [] ∧ get_word_set b = []) →
        check_divergence a b =
          (decide (jaccard_index (get_word_set a) (get_word_set b) < SIMILARITY_THRESHOLD),
            jaccard_index (get_word_set a) (get_word_set b)))) ∧
    check_divergence "Open settings".data "Open the app settings now".data =
      (true, 2 / 5) := by
  constructor
  · intro a b hpse
    constructor
    · intro hboth
      unfold check_divergence
      rw [hpse]
      simp only [Bool.false_eq_true, if_false, if_pos hboth]
    · intro hnboth
      unfold check_divergence
      rw [hpse]
      simp only [Bool.false_eq_true, if_false, if_neg hnboth]
      have huni : ¬((get_word_set a ++ get_word_set b).dedup = []) := by
        intro hu
        rcases List.append_eq_nil.mp ((List.dedup_eq_nil _).mp hu) with ⟨ha, hb⟩
        exact hnboth ⟨ha, hb⟩
      rw [if_neg huni]
      rfl
  · have hpse : placeholder_stripped_equal "Open settings".data
        "Open the app settings now".data = false := by decide
    have h1 : get_word_set "Open settings".data = ["open".data, "settings".data] := by
      decide
    have h2 : get_word_set "Open the app settings now".data =
        ["open".data, "the".data, "app".data, "settings".data, "now".data] := by
      decide
    unfold check_divergence
    rw [hpse]
    simp only [Bool.false_eq_true, if_false, h1, h2]
    have hc1 : ¬(["open".data, "settings".data] = ([] : List (List Char)) ∧
        ["open".data, "the".data, "app".data, "settings".data, "now".data] =
          ([] : List (List Char))) := by decide
    have hc2 : ¬((["open".data, "settings".data] ++
        ["open".data, "the".data, "app".data, "settings".data, "now".data]).dedup =
          ([] : List (List Char))) := by decide
    rw [if_neg hc1, if_neg hc2]
    have hf : (["open".data, "settings".data].filter
        (fun w => w ∈ ["open".data, "the".data, "app".data, "settings".data,
          "now".data])).length = 2 := by decide
    have hd : ((["open".data, "settings".data] ++
        ["open".data, "the".data, "app".data, "settings".data, "now".data]).dedup).length =
        5 := by decide
    rw [hf, hd, Prod.mk.injEq]
    refine ⟨?_, ?_⟩
    · rw [decide_eq_true_eq]
      norm_num [SIMILARITY_THRESHOLD]
    · norm_num

/-- C7 witness: the general statement applied at a concrete
non-equal, non-empty pair. -/
theorem C7_witness :
    check_divergence "Hello world".data "More words here now".data =
      (decide (jaccard_index (get_word_set "Hello world".data)
          (get_word_set "More words here now".data) < SIMILARITY_THRESHOLD),
        jaccard_index (get_word_set "Hello world".data)
          (get_word_set "More words here now".data)) :=
  (C7_check_divergence_jaccard.1 _ _ (by decide)).2 (by decide)

/-- No character lowercases to the uppercase `Q`, so a lowercased
string never contains `Q`. -/
theorem pyLower_ne_Q (c : Char) : pyLower c ≠ 'Q' := by
  unfold pyLower
  cases hf : lowerTable.find? (fun p => p.1 = c) with
  | none =>
    intro hc
    rw [Option.map_none', Option.getD_none] at hc
    subst hc
    have := List.find?_eq_none.mp hf ('Q', 'q') (by decide)
    simp at this
  | some p =>
    rw [Option.map_some', Option.getD_some]
    have hmem := List.mem_of_find?_eq_some hf
    have hall : ∀ q ∈ lowerTable, q.2 ≠ 'Q' := by decide
    exact hall p hmem

/-- Characters of a word produced by `wsWords` come from the input. -/
theorem mem_of_mem_wsWords :
    ∀ (l w : List Char), w ∈ wsWords l → ∀ c ∈ w, c ∈ l := by
  intro l
  induction l with
  | nil => intro w hw; simp [wsWords] at hw
  | cons a t ih =>
    intro w hw c hc
    cases t with
    | nil =>
      simp only [wsWords] at hw
      by_cases ha : isPyWS a = true
      · rw [if_pos ha] at hw
        simp at hw
      · rw [if_neg ha] at hw
        simp only [List.mem_singleton] at hw
        subst hw
        simp only [List.mem_singleton] at hc
        subst hc
        exact List.mem_cons_self _ _
    | cons d t2 =>
      simp only [wsWords] at hw
      by_cases ha : isPyWS a = true
      · rw [if_pos ha] at hw
        exact List.mem_cons_of_mem _ (ih w hw c hc)
      · rw [if_neg ha] at hw
        by_cases hd : isPyWS d = true
        · rw [if_pos hd] at hw
          rcases List.mem_cons.mp hw with h1 | h2
          · subst h1
            simp only [List.mem_singleton] at hc
            subst hc
            exact List.mem_cons_self _ _
          · exact List.mem_cons_of_mem _ (ih w h2 c hc)
        · rw [if_neg hd] at hw
          cases hr : wsWords (d :: t2) with
          | nil =>
            simp only [hr, List.mem_singleton] at hw
            subst hw
            simp only [List.mem_singleton] at hc
            subst hc
            exact List.mem_cons_self _ _
          | cons w0 ws0 =>
            simp only [hr] at hw
            rcases List.mem_cons.mp hw with h1 | h2
            · subst h1
              rcases List.mem_cons.mp hc with h3 | h4
              · subst h3
                exact List.mem_cons_self _ _
              · exact List.mem_cons_of_mem _
                  (ih w0 (hr ▸ List.mem_cons_self _ _) c h4)
            · exact List.mem_cons_of_mem _
                (ih w (hr ▸ List.mem_cons_of_mem _ h2) c hc)

/-- Characters of `sjoin` are the space separator or come from the
words. -/
theorem mem_sjoin :
    ∀ (ws : List (List Char)) (c : Char), c ∈ sjoin ws → c = ' ' ∨ ∃ w ∈ ws, c ∈ w := by
  intro ws
  induction ws with
  | nil => intro c hc; simp [sjoin] at hc
  | cons w rest ih =>
    intro c hc
    cases rest with
    | nil =>
      right
      exact ⟨w, List.mem_cons_self _ _, by simpa [sjoin] using hc⟩
    | cons w2 rest2 =>
      rw [show sjoin (w :: w2 :: rest2) = w ++ ' ' :: sjoin (w2 :: rest2) from rfl] at hc
      rcases List.mem_append.mp hc with h1 | h2
      · right; exact ⟨w, List.mem_cons_self _ _, h1⟩
      · rcases List.mem_cons.mp h2 with h3 | h4
        · left; exact h3
        · rcases ih c h4 with h5 | ⟨w', hw', hc'⟩
          · left; exact h5
          · right; exact ⟨w', List.mem_cons_of_mem _ hw', hc'⟩

/-- Characters of `' '.join(s.split())` are spaces or come from `s`. -/
theorem mem_pyJoinSplit (l : List Char) (c : Char) (hc : c ∈ pyJoinSplit l) :
    c = ' ' ∨ c ∈ l := by
  rcases mem_sjoin _ c hc with h | ⟨w, hw, hcw⟩
  · left; exact h
  · right; exact mem_of_mem_wsWords l w hw c hcw

/-- `str.split()` of a nonempty all-non-whitespace string is that one
word. -/
theorem wsWords_all_nonws :
    ∀ seg : List Char, seg ≠ [] → (∀ c ∈ seg, isPyWS c = false) → wsWords seg = [seg] := by
  intro seg
  induction seg with
  | nil => intro h; exact absurd rfl h
  | cons a t ih =>
    intro _ hall
    have ha : isPyWS a = false := hall a (List.mem_cons_self _ _)
    cases t with
    | nil =>
      simp only [wsWords]
      simp only [ha, Bool.false_eq_true, if_false]
    | cons d t2 =>
      have hd : isPyWS d = false := hall d (List.mem_cons_of_mem _ (List.mem_cons_self _ _))
      have ht := ih (by simp) (fun c hc => hall c (List.mem_cons_of_mem _ hc))
      simp only [wsWords]
      simp only [ha, hd, Bool.false_eq_true, if_false, ht]

/-- Dropping a leading whitespace character from `str.split()`. -/
theorem wsWords_cons_ws (a : Char) (u : List Char) (ha : isPyWS a = true) :
    wsWords (a :: u) = wsWords u := by
  cases u with
  | nil =>
    simp only [wsWords]
    rw [if_pos ha]
  | cons d t2 =>
    simp only [wsWords]
    rw [if_pos ha]

/-- `wsWords` of a list with a non-whitespace head is nonempty. -/
theorem wsWords_cons_nonws_ne_nil (a : Char) (t : List Char) (ha : isPyWS a = false) :
    wsWords (a :: t) ≠ [] := by
  cases t with
  | nil =>
    simp only [wsWords]
    simp [ha]
  | cons d t2 =>
    simp only [wsWords]
    simp only [ha, Bool.false_eq_true, if_false]
    by_cases hd : isPyWS d = true
    · rw [if_pos hd]; simp
    · rw [if_neg hd]
      cases hr : wsWords (d :: t2) with
      | nil => simp [hr]
      | cons w0 ws0 => simp [hr]

/-- Prepending the head character of a word to the join. -/
theorem sjoin_cons_cons (a : Char) (w : List Char) (ws : List (List Char)) :
    sjoin ((a :: w) :: ws) = a :: sjoin (w :: ws) := by
  cases ws with
  | nil => rfl
  | cons w2 rest => rfl

/-- Collapsing whitespace after a non-whitespace head character either
keeps the head glued to the first word or separates it by one space. -/
theorem pyJoinSplit_cons_nonws (a : Char) (u : List Char) (ha : isPyWS a = false) :
    pyJoinSplit (a :: u) = a :: pyJoinSplit u ∨
    pyJoinSplit (a :: u) = a :: ' ' :: pyJoinSplit u := by
  unfold pyJoinSplit
  cases u with
  | nil =>
    left
    simp only [wsWords]
    simp [ha, sjoin]
  | cons d t2 =>
    simp only [wsWords]
    simp only [ha, Bool.false_eq_true, if_false]
    by_cases hd : isPyWS d = true
    · rw [if_pos hd]
      cases hr : wsWords (d :: t2) with
      | nil => left; rfl
      | cons w0 ws0 => right; rfl
    · rw [if_neg hd]
      cases hr : wsWords (d :: t2) with
      | nil =>
        exact absurd hr (wsWords_cons_nonws_ne_nil d t2 (by simpa using hd))
      | cons w0 ws0 =>
        left
        simp only [hr, sjoin_cons_cons]

/-- A nonempty all-non-whitespace suffix survives whitespace collapsing
as a suffix. -/
theorem suffix_pyJoinSplit :
    ∀ (u seg : List Char), seg ≠ [] → (∀ c ∈ seg, isPyWS c = false) →
      List.IsSuffix seg u → List.IsSuffix seg (pyJoinSplit u) := by
  intro u
  induction u with
  | nil =>
    intro seg hne _ hsuf
    exact absurd (List.suffix_nil.mp hsuf) hne
  | cons a u' ih =>
    intro seg hne hall hsuf
    rcases List.suffix_cons_iff.mp hsuf with heq | htail
    · subst heq
      have ha : isPyWS a = false := hall a (List.mem_cons_self _ _)
      unfold pyJoinSplit
      rw [wsWords_all_nonws _ hne hall]
      exact List.suffix_refl _
    · have hrec := ih seg hne hall htail
      by_cases ha : isPyWS a = true
      · have heq2 : pyJoinSplit (a :: u') = pyJoinSplit u' := by
          unfold pyJoinSplit
          rw [wsWords_cons_ws a u' ha]
        rw [heq2]
        exact hrec
      · rcases pyJoinSplit_cons_nonws a u' (by simpa using ha) with h | h
        · rw [h]
          exact hrec.trans (List.suffix_cons a _)
        · rw [h]
          exact hrec.trans ((List.suffix_cons ' ' _).trans (List.suffix_cons a _))

/-- C6 counterexample: the claim's scenario says both canonical
strings "have the placeholder replaced by the `{PH}` token"; the
canonical key is lowercased after the substitution, so the literal
token `{PH}` does not occur in either canonical string (the lowercased
`{ph}` does). -/
theorem C6_counterexample :
    ¬ List.IsInfix "{PH}".data
      (canonicalize_msgid "Are you sure you want to delete %1$s?".data).1 ∧
    ¬ List.IsInfix "{PH}".data
      (canonicalize_msgid "Biztosan törölni szeretnéd ezt: %s?".data).1 := by
  decide

/-- C6 (amended): `canonicalize_msgid` appends the interrogative
marker `{Q}` exactly when the normalized placeholder-tokenized text
ends with a question mark; since the rest of the canonical key is
lowercased (and no character lowercases to `Q`), a canonical key
without the marker never ends in `{Q}`, so interrogative and
non-interrogative variants never collide.  On the two scenario strings
the canonical keys both end in `{Q}` and carry the lowercased
placeholder token `{ph}` where the placeholder was substituted. -/
theorem C6_canonical_interrogative_marker :
    (∀ m : List Char,
      List.IsSuffix "{Q}".data (canonicalize_msgid m).1 ↔ ends_interrogative m = true) ∧
    (∀ m1 m2 : List Char, ends_interrogative m1 = true → ends_interrogative m2 = false →
      (canonicalize_msgid m1).1 ≠ (canonicalize_msgid m2).1) ∧
    canonicalize_msgid "Are you sure you want to delete %1$s?".data =
      ("are you sure you want to delete {ph}{Q}".data,
       "Are you sure you want to delete %1$s?".data) ∧
    canonicalize_msgid "Biztosan törölni szeretnéd ezt: %s?".data =
      ("biztosan törölni szeretnéd ezt: {ph}{Q}".data,
       "Biztosan törölni szeretnéd ezt: %s?".data) := by
  have hiff : ∀ m : List Char,
      List.IsSuffix "{Q}".data (canonicalize_msgid m).1 ↔ ends_interrogative m = true := by
    intro m
    by_cases hm : m = []
    · subst hm
      constructor
      · intro h
        have h2 : "{Q}".data = ([] : List Char) := by
          apply List.suffix_nil.mp
          simp only [canonicalize_msgid] at h
          exact h
        exact absurd h2 (by decide)
      · intro h
        exact absurd h (by decide)
    · unfold canonicalize_msgid ends_interrogative
      rw [if_neg hm]
      cases hq : (normalize_end_punctuation_except_q
          (normalize_placeholders (strip_formatting_and_normalize_ws m))).2 with
      | true =>
        simp only [hq, if_true]
        constructor
        · intro _; trivial
        · intro _
          exact suffix_pyJoinSplit _ _ (by decide) (by decide) (List.suffix_append _ _)
      | false =>
        simp only [hq, Bool.false_eq_true, if_false, List.append_nil]
        constructor
        · intro h
          exfalso
          have hQ : 'Q' ∈ pyJoinSplit (pyLowerStr (normalize_end_punctuation_except_q
              (normalize_placeholders (strip_formatting_and_normalize_ws m))).1) :=
            h.sublist.subset (by decide)
          rcases mem_pyJoinSplit _ _ hQ with h' | h'
          · exact absurd h' (by decide)
          · rcases List.mem_map.mp h' with ⟨d, _, hd⟩
            exact pyLower_ne_Q d hd
        · intro h
          exact absurd h (by decide)
  refine ⟨hiff, ?_, by decide, by decide⟩
  intro m1 m2 h1 h2 heq
  have s1 := (hiff m1).mpr h1
  rw [heq] at s1
  have s2 := (hiff m2).mp s1
  rw [h2] at s2
  exact absurd s2 (by decide)

/-- C6 witness: the interrogative scenario string never collides with
a non-interrogative one. -/
theorem C6_witness :
    (canonicalize_msgid "Are you sure you want to delete %1$s?".data).1 ≠
      (canonicalize_msgid "Open settings".data).1 :=
  C6_canonical_interrogative_marker.2.1 _ _ (by decide) (by decide)

/-! ### Codec round-trip (C2) -/

/-- A single-character replace is a character-to-string map. -/
theorem replChar_eq_cmap (a : Char) (rep : List Char) :
    ∀ l, replChar a rep l = cmap (fun c => if c = a then rep else [c]) l := by
  intro l
  induction l with
  | nil => rfl
  | cons c t ih => simp [replChar, cmap, ih]

/-- `cmap` distributes over append. -/
theorem cmap_append (f : Char → List Char) :
    ∀ x y, cmap f (x ++ y) = cmap f x ++ cmap f y := by
  intro x y
  induction x with
  | nil => rfl
  | cons c t ih => simp [cmap, ih]

/-- Composition of two `cmap`s. -/
theorem cmap_cmap (f g : Char → List Char) :
    ∀ l, cmap g (cmap f l) = cmap (fun c => cmap g (f c)) l := by
  intro l
  induction l with
  | nil => rfl
  | cons c t ih => simp [cmap, cmap_append, ih]

/-- Members of a `cmap` image come from the image of some input
character. -/
theorem mem_cmap (f : Char → List Char) (c : Char) :
    ∀ l, c ∈ cmap f l → ∃ d ∈ l, c ∈ f d := by
  intro l
  induction l with
  | nil => intro h; simp [cmap] at h
  | cons d t ih =>
    intro h
    rcases List.mem_append.mp h with h1 | h2
    · exact ⟨d, List.mem_cons_self _ _, h1⟩
    · rcases ih h2 with ⟨d', hd', hc'⟩
      exact ⟨d', List.mem_cons_of_mem _ hd', hc'⟩

/-- A `cmap` that keeps every character of the list is the identity. -/
theorem cmap_id_of (f : Char → List Char) :
    ∀ l, (∀ c ∈ l, f c = [c]) → cmap f l = l := by
  intro l
  induction l with
  | nil => intro _; rfl
  | cons c t ih =>
    intro hall
    simp [cmap, hall c (List.mem_cons_self _ _),
      ih (fun d hd => hall d (List.mem_cons_of_mem _ hd))]

/-- Pointwise-equal maps give equal `cmap`s. -/
theorem cmap_congr (f g : Char → List Char) :
    ∀ l, (∀ c ∈ l, f c = g c) → cmap f l = cmap g l := by
  intro l
  induction l with
  | nil => intro _; rfl
  | cons c t ih =>
    intro hall
    simp [cmap, hall c (List.mem_cons_self _ _),
      ih (fun d hd => hall d (List.mem_cons_of_mem _ hd))]

/-- `s.replace('\r\n', ...)` is the identity on carriage-return-free
strings. -/
theorem replPair_cr_id (rep : List Char) :
    ∀ l : List Char, '\r' ∉ l → replPair '\r' '\n' rep l = l := by
  intro l
  induction l with
  | nil => intro _; rfl
  | cons c t ih =>
    intro h
    have hc : c ≠ '\r' := fun e => h (e ▸ List.mem_cons_self _ _)
    have ht : '\r' ∉ t := fun hx => h (List.mem_cons_of_mem _ hx)
    cases t with
    | nil => rfl
    | cons d t2 =>
      show (if c = '\r' && d = '\n' then _ else _) = _
      rw [if_neg (by simp [hc])]
      exact congrArg (c :: ·) (ih ht)

/-- The two escape-introducing head replaces of `po_escape` never
produce a carriage return from a carriage-return-free string. -/
theorem no_cr_after_escapes (s : List Char) (h : '\r' ∉ s) :
    ∀ c ∈ cmap (fun c => cmap escQuote (escBS c)) s, c ≠ '\r' := by
  intro c hcm hceq
  subst hceq
  rcases mem_cmap _ _ _ hcm with ⟨d, hd, hin⟩
  by_cases h1 : d = '\\'
  · subst h1
    exact absurd hin (by decide)
  by_cases h2 : d = '"'
  · subst h2
    exact absurd hin (by decide)
  · have hfd : cmap escQuote (escBS d) = [d] := by
      simp [escBS, escQuote, cmap, h1, h2]
    rw [hfd] at hin
    simp only [List.mem_singleton] at hin
    rw [hin] at h
    exact h hd

/-- On a carriage-return-free string the `po_escape` replacement chain
acts as the per-character map `escChar`. -/
theorem poEscContent_eq_cmap (s : List Char) (h : '\r' ∉ s) :
    poEscContent s = cmap escChar s := by
  have hnocr := no_cr_after_escapes s h
  have e1 : replChar '\\' ['\\', '\\'] s = cmap escBS s := replChar_eq_cmap _ _ s
  have e2 : replChar '"' ['\\', '"'] (cmap escBS s) =
      cmap (fun c => cmap escQuote (escBS c)) s := by
    rw [replChar_eq_cmap]
    exact cmap_cmap _ _ s
  have e3 : replPair '\r' '\n' ['\n'] (cmap (fun c => cmap escQuote (escBS c)) s) =
      cmap (fun c => cmap escQuote (escBS c)) s :=
    replPair_cr_id _ _ (fun hx => hnocr _ hx rfl)
  have e4 : replChar '\r' ['\n'] (cmap (fun c => cmap escQuote (escBS c)) s) =
      cmap (fun c => cmap escQuote (escBS c)) s := by
    rw [replChar_eq_cmap]
    exact cmap_id_of _ _ (fun c hc => if_neg (hnocr c hc))
  have e5 : replChar '\n' ['\\', 'n'] (cmap (fun c => cmap escQuote (escBS c)) s) =
      cmap (fun c => cmap escNL (cmap escQuote (escBS c))) s := by
    rw [replChar_eq_cmap]
    exact cmap_cmap _ _ s
  have e6 : replChar '\t' ['\\', 't']
        (cmap (fun c => cmap escNL (cmap escQuote (escBS c))) s) =
      cmap (fun c => cmap escTab (cmap escNL (cmap escQuote (escBS c)))) s := by
    rw [replChar_eq_cmap]
    exact cmap_cmap _ _ s
  unfold poEscContent
  rw [e1, e2, e3, e4, e5, e6]
  apply cmap_congr
  intro c hc
  have hcr : c ≠ '\r' := fun e => h (e ▸ hc)
  by_cases h1 : c = '\\'
  · subst h1; decide
  by_cases h2 : c = '"'
  · subst h2; decide
  by_cases h3 : c = '\n'
  · subst h3; decide
  by_cases h4 : c = '\t'
  · subst h4; decide
  · simp [escBS, escQuote, escNL, escTab, escChar, cmap, h1, h2, h3, h4]

/-- Evaluation of the strict decoder on an escaped backslash. -/
theorem pyScan_esc_bs (r : List Char) :
    pyScan PyState.lit ('\\' :: '\\' :: r) =
      Option.map (List.cons '\\') (pyScan PyState.lit r) := by
  cases h : pyScan PyState.lit r <;> simp [pyScan, pyStep, litStep, h]

/-- Evaluation of the strict decoder on an escaped quote. -/
theorem pyScan_esc_quote (r : List Char) :
    pyScan PyState.lit ('\\' :: '"' :: r) =
      Option.map (List.cons '"') (pyScan PyState.lit r) := by
  cases h : pyScan PyState.lit r <;> simp [pyScan, pyStep, litStep, h]

/-- Evaluation of the strict decoder on an escaped newline. -/
theorem pyScan_esc_nl (r : List Char) :
    pyScan PyState.lit ('\\' :: 'n' :: r) =
      Option.map (List.cons '\n') (pyScan PyState.lit r) := by
  cases h : pyScan PyState.lit r <;> simp [pyScan, pyStep, litStep, h]

/-- Evaluation of the strict decoder on an escaped tab. -/
theorem pyScan_esc_tab (r : List Char) :
    pyScan PyState.lit ('\\' :: 't' :: r) =
      Option.map (List.cons '\t') (pyScan PyState.lit r) := by
  cases h : pyScan PyState.lit r <;> simp [pyScan, pyStep, litStep, h]

/-- Evaluation of the strict decoder on a plain character. -/
theorem pyScan_plain (c : Char) (r : List Char) (h1 : c ≠ '"') (h2 : c ≠ '\\')
    (h3 : c ≠ '\n') (h4 : c ≠ '\r') (h5 : c ≠ nulChar) :
    pyScan PyState.lit (c :: r) = Option.map (List.cons c) (pyScan PyState.lit r) := by
  cases h : pyScan PyState.lit r <;>
    simp [pyScan, pyStep, litStep, h, h1, h2, h3, h4, h5]

/-- Decoding the per-character escape image recovers the original
string (no carriage return, no NUL). -/
theorem pyScan_cmap_escChar :
    ∀ s : List Char, '\r' ∉ s → nulChar ∉ s →
      pyScan PyState.lit (cmap escChar s) = some s := by
  intro s
  induction s with
  | nil => intro _ _; rfl
  | cons c t ih =>
    intro hr h0
    have hrt : '\r' ∉ t := fun hx => hr (List.mem_cons_of_mem _ hx)
    have h0t : nulChar ∉ t := fun hx => h0 (List.mem_cons_of_mem _ hx)
    have iht := ih hrt h0t
    have hcr : c ≠ '\r' := fun e => hr (e ▸ List.mem_cons_self _ _)
    have hc0 : c ≠ nulChar := fun e => h0 (e ▸ List.mem_cons_self _ _)
    by_cases h1 : c = '\\'
    · subst h1
      show pyScan PyState.lit ('\\' :: '\\' :: cmap escChar t) = some ('\\' :: t)
      rw [pyScan_esc_bs, iht]
      rfl
    by_cases h2 : c = '"'
    · subst h2
      show pyScan PyState.lit ('\\' :: '"' :: cmap escChar t) = some ('"' :: t)
      rw [pyScan_esc_quote, iht]
      rfl
    by_cases h3 : c = '\n'
    · subst h3
      show pyScan PyState.lit ('\\' :: 'n' :: cmap escChar t) = some ('\n' :: t)
      rw [pyScan_esc_nl, iht]
      rfl
    by_cases h4 : c = '\t'
    · subst h4
      show pyScan PyState.lit ('\\' :: 't' :: cmap escChar t) = some ('\t' :: t)
      rw [pyScan_esc_tab, iht]
      rfl
    · have hesc : cmap escChar (c :: t) = c :: cmap escChar t := by
        simp [cmap, escChar, h1, h2, h3, h4]
      rw [hesc, pyScan_plain c _ h2 h1 h3 hcr hc0, iht]
      rfl

/-- Stripping a quote-delimited line is the identity. -/
theorem pyStrip_quoted (x : List Char) :
    pyStrip ('"' :: x ++ ['"']) = '"' :: x ++ ['"'] := by
  unfold pyStrip pyLstrip pyRstrip
  rw [List.cons_append]
  have h1 : List.dropWhile isPyWS ('"' :: (x ++ ['"'])) = '"' :: (x ++ ['"']) := by
    rw [List.dropWhile_cons]
    simp [isPyWS]
  rw [h1]
  have h2 : ('"' :: (x ++ ['"'])).reverse = '"' :: ('"' :: x).reverse := by
    rw [← List.cons_append, List.reverse_append]
    rfl
  rw [h2, List.dropWhile_cons]
  simp [isPyWS, List.reverse_cons, List.reverse_reverse]

/-- C2 counterexample: the round-trip law fails on a carriage return
(a string with no surrogate-like malformed content): `po_escape`
normalizes it to a newline before encoding, so decoding yields a
newline, not the original string. -/
theorem C2_counterexample :
    parse_po_string (po_escape ['\r']) = ['\n'] ∧
    parse_po_string (po_escape ['\r']) ≠ ['\r'] := by
  decide

/-- C2 (amended): decoding the encoding is the identity for every
string that contains no carriage return (and no NUL, which the strict
decoder cannot compile): `_parse_po_string (po_escape s) = s`.  This
covers in particular all printable strings.  Carriage returns are
excluded because `po_escape` deliberately normalizes the line-ending
variants CRLF and CR to a single newline before encoding. -/
theorem C2_roundtrip (s : List Char) (hr : '\r' ∉ s) (h0 : nulChar ∉ s) :
    parse_po_string (po_escape s) = s := by
  have hstrip : pyStrip (po_escape s) = '"' :: poEscContent s ++ ['"'] := by
    unfold po_escape
    exact pyStrip_quoted _
  have hcond : 2 ≤ (pyStrip (po_escape s)).length ∧
      (pyStrip (po_escape s)).headD ' ' = '"' ∧
      (pyStrip (po_escape s)).getLastD ' ' = '"' := by
    rw [hstrip]
    refine ⟨?_, rfl, List.getLastD_concat ..⟩
    simp
  have hcontent : po_line_content (po_escape s) = poEscContent s := by
    unfold po_line_content
    rw [hstrip, List.cons_append, List.drop_one, List.tail_cons, List.dropLast_concat]
  have heval : pyLiteralEval (po_line_content (po_escape s)) = some s := by
    unfold pyLiteralEval
    rw [hcontent, poEscContent_eq_cmap s hr]
    exact pyScan_cmap_escChar s hr h0
  unfold parse_po_string
  rw [if_pos hcond, heval]

/-- C2 witness: the amended round trip at a string exercising every
escaped character. -/
theorem C2_witness :
    parse_po_string (po_escape "a\n\"\\\tz".data) = "a\n\"\\\tz".data :=
  C2_roundtrip _ (by decide) (by decide)

end ComparePO
